import Mathlib

/-
  Verification development for the FSCommander repository.

  Shallow embedding of the core logic of:
  - fscommand/search.py   (size-filter parsing and matching, text search fallback)
  - fscommand/dir_ops.py  (directory listing, sync engine)
  - fscommand/file_ops.py (remove)

  All definitions are translated from the Python source.  Filesystem state is
  made explicit (lists of entries / association lists from paths to contents);
  exceptions that the source can raise are modelled with Except.
-/

/- ===================== search.py : size filter ===================== -/

/-- Python `str.strip()`: drop leading and trailing whitespace. -/
def pyStrip (cs : List Char) : List Char :=
  ((cs.dropWhile Char.isWhitespace).reverse.dropWhile Char.isWhitespace).reverse

/-- Python `str.upper()` on ASCII input: uppercase every character. -/
def pyUpper (cs : List Char) : List Char := cs.map Char.toUpper

/-- Numeric value of a digit string, most significant digit first. -/
def digitsVal (cs : List Char) : Nat := cs.foldl (fun a c => 10 * a + (c.toNat - 48)) 0

/-- Optional leading sign of a Python numeric literal. -/
def parseSign (cs : List Char) : Int × List Char :=
  match cs with
  | c :: r => if c = '+' then (1, r) else if c = '-' then (-1, r) else (1, cs)
  | [] => (1, cs)

/-- Second half of `pyFloat`: integer digits `d1` and fractional digits `d2`
    have been read; `rest` may carry a decimal exponent.  The value is kept as
    an exact fraction (numerator, positive power-of-ten denominator). -/
def pyFloatTail (sg : Int) (d1 d2 rest : List Char) : Option (Int × Nat) :=
  if d1.isEmpty && d2.isEmpty then none
  else
    match rest with
    | [] => some (sg * (digitsVal (d1 ++ d2) : Int), 10 ^ d2.length)
    | c :: r =>
        if c = 'E' then
          if ((parseSign r).2.takeWhile Char.isDigit).isEmpty
              || !((parseSign r).2.dropWhile Char.isDigit).isEmpty then none
          else if 0 ≤ (parseSign r).1 then
            some (sg * (digitsVal (d1 ++ d2) : Int)
                    * (10 : Int) ^ digitsVal ((parseSign r).2.takeWhile Char.isDigit),
                  10 ^ d2.length)
          else
            some (sg * (digitsVal (d1 ++ d2) : Int),
                  10 ^ d2.length * 10 ^ digitsVal ((parseSign r).2.takeWhile Char.isDigit))
        else none

/-- Digits, optional fraction and optional exponent of a float literal,
    after the sign has been read. -/
def pyFloatBody (sg : Int) (cs1 : List Char) : Option (Int × Nat) :=
  match cs1.dropWhile Char.isDigit with
  | [] => pyFloatTail sg (cs1.takeWhile Char.isDigit) [] []
  | c :: r =>
      if c = '.' then
        pyFloatTail sg (cs1.takeWhile Char.isDigit) (r.takeWhile Char.isDigit)
          (r.dropWhile Char.isDigit)
      else pyFloatTail sg (cs1.takeWhile Char.isDigit) [] (c :: r)

/-- Model of Python `float(s)` on the (already uppercased) numeric portion:
    finite decimal literals `[sign] digits [. digits] [E [sign] digits]`,
    evaluated exactly as a fraction.  CPython rounds the literal to an
    IEEE-754 double and also tolerates surrounding whitespace, digit
    underscores and the `inf`/`nan` literals; none of that is modelled here.
    Every theorem below that uses `pyFloat` therefore either restricts
    itself to integer numerals below 2^53 — where the double conversion is
    exact and multiplication by the power-of-two unit multiplier stays
    exact — or does not depend on the numeric value (non-negativity is
    decided by the sign alone, and the failure cases coincide). -/
def pyFloat (cs : List Char) : Option (Int × Nat) :=
  pyFloatBody (parseSign cs).1 (parseSign cs).2

/-- Model of Python `int(s)` with base 10: `[sign] digits`. -/
def pyInt (cs : List Char) : Option Int :=
  if (parseSign cs).2.isEmpty || !(parseSign cs).2.all Char.isDigit then none
  else some ((parseSign cs).1 * (digitsVal (parseSign cs).2 : Int))

/-- Python `int(x)` on an exact fraction: truncation toward zero. -/
def intOfFloat (q : Int × Nat) : Int := q.1.tdiv (q.2 : Int)

/-- The `units` dict of `_parse_size_filter`, already arranged as
    `sorted(units.items(), key=lambda x: -len(x[0]))` yields it
    (stable sort: KB, MB, GB, TB before B). -/
def unitsList : List (List Char × Int) :=
  [(['K', 'B'], 1024), (['M', 'B'], 1024 ^ 2), (['G', 'B'], 1024 ^ 3),
   (['T', 'B'], 1024 ^ 4), (['B'], 1)]

/-- The no-unit fallthrough of `_parse_size_filter`: `int(val_str)`,
    or the permissive default `(">", 0)` when that also fails. -/
def intFallback (op : String) (v : List Char) : String × Int :=
  match pyInt v with
  | some n => (op, n)
  | none => (">", 0)

/-- The unit loop of `_parse_size_filter`: the first suffix match tries the
    float conversion, returning `(op, int(value * multiplier))` on success;
    a conversion failure executes `break`, falling through to `int(val_str)`. -/
def unitLoop (op : String) (v : List Char) : List (List Char × Int) → String × Int
  | [] => intFallback op v
  | (u, m) :: rest =>
    if u.isSuffixOf v then
      match pyFloat (v.take (v.length - u.length)) with
      | some q => (op, intOfFloat (q.1 * m, q.2))
      | none => intFallback op v
    else unitLoop op v rest

/-- `startswith` on code-point lists. -/
def leadsWith : List Char → List Char → Bool
  | [], _ => true
  | _ :: _, [] => false
  | p :: ps, c :: cs => p = c && leadsWith ps cs

/-- Comparison-operator extraction of `_parse_size_filter`
    (`>=` and `<=` tested before `>` and `<`; default `>`). -/
def opSplit (cs : List Char) : String × List Char :=
  if leadsWith ['>', '='] cs then (">=", cs.drop 2)
  else if leadsWith ['<', '='] cs then ("<=", cs.drop 2)
  else if leadsWith ['>'] cs then (">", cs.drop 1)
  else if leadsWith ['<'] cs then ("<", cs.drop 1)
  else (">", cs)

/-- `search.py _parse_size_filter`: strip and uppercase the spec, split off the
    operator, then run the unit loop. -/
def parse_size_filter (s : String) : String × Int :=
  let cs := pyUpper (pyStrip s.data)
  let p := opSplit cs
  unitLoop p.1 p.2 unitsList

/-- `search.py _matches_size`: apply the operator directly; anything outside
    the four comparison operators yields `False`. -/
def matches_size (file_size : Int) (f : String × Int) : Bool :=
  if f.1 = ">" then decide (file_size > f.2)
  else if f.1 = ">=" then decide (file_size ≥ f.2)
  else if f.1 = "<" then decide (file_size < f.2)
  else if f.1 = "<=" then decide (file_size ≤ f.2)
  else false

example : parse_size_filter ">1MB" = (">", 1048576) := by decide
example : parse_size_filter "<=2KB" = ("<=", 2048) := by decide
example : parse_size_filter ">abcMB" = (">", 0) := by decide
example : parse_size_filter "-5KB" = (">", -5120) := by decide
example : parse_size_filter "100" = (">", 100) := by decide
example : parse_size_filter "1.5kb" = (">", 1536) := by decide
example : parse_size_filter "KB" = (">", 0) := by decide
example : matches_size 1048577 (">", 1048576) = true := by decide
example : matches_size 1048576 (">", 1048576) = false := by decide

/- ===================== dir_ops.py : list_directory ===================== -/

/-- One immediate child of the listed directory: its name and whether
    `entry.is_file()` holds (the two fields the listing logic reads). -/
structure DirEntry where
  name : String
  isFile : Bool
deriving DecidableEq

/-- Python `str.lower()` on ASCII input. -/
def pyLowerL (cs : List Char) : List Char := cs.map Char.toLower

/-- Lexicographic comparison of code-point lists, Python string `<=`. -/
def lexLe : List Char → List Char → Bool
  | [], _ => true
  | _ :: _, [] => false
  | a :: as, b :: bs => if a = b then lexLe as bs else decide (a < b)

/-- The sort key of `list_directory`: Python tuple order on
    `(entry.is_file(), entry.name.lower())` with `False < True`. -/
def entryKeyLe (a b : DirEntry) : Bool :=
  if a.isFile = b.isFile then lexLe (pyLowerL a.name.data) (pyLowerL b.name.data)
  else !a.isFile && b.isFile

/-- Stable insertion into an already sorted list: the new element goes before
    the first element not strictly below it. -/
def stableInsert (le : α → α → Bool) (a : α) : List α → List α
  | [] => [a]
  | b :: bs => if le a b then a :: b :: bs else b :: stableInsert le a bs

/-- Python `sorted`: a stable sort is unique for a total preorder, so stable
    insertion sort gives exactly the list `sorted(...)` produces. -/
def pySorted (le : α → α → Bool) : List α → List α
  | [] => []
  | a :: as => stableInsert le a (pySorted le as)

/-- Python `name.startswith(".")`. -/
def hiddenName (s : String) : Bool :=
  match s.data with
  | '.' :: _ => true
  | _ => false

/-- `dir_ops.py list_directory` over the list of immediate children returned
    by `iterdir`: sort by `(is_file, name.lower())`, then keep an entry unless
    it is hidden and `show_hidden` is off.  (The guards for a missing root or a
    permission error return `[]` before this point; the `detailed` flag only
    adds size/mtime fields to each kept entry and affects neither membership
    nor order, so it is not represented.) -/
def list_directory (entries : List DirEntry) (show_hidden : Bool) : List DirEntry :=
  (pySorted entryKeyLe entries).filter fun e => show_hidden || !hiddenName e.name

example :
    list_directory [⟨"b.TXT", true⟩, ⟨".hid", true⟩, ⟨"Zdir", false⟩, ⟨"a.txt", true⟩] false
      = [⟨"Zdir", false⟩, ⟨"a.txt", true⟩, ⟨"b.TXT", true⟩] := by decide

example :
    list_directory [⟨"b.TXT", true⟩, ⟨".hid", true⟩, ⟨"Zdir", false⟩, ⟨"a.txt", true⟩] true
      = [⟨"Zdir", false⟩, ⟨".hid", true⟩, ⟨"a.txt", true⟩, ⟨"b.TXT", true⟩] := by decide

/- ===================== dir_ops.py : sync ===================== -/

deriving instance DecidableEq for Except

/-- The counters accumulated by one sync invocation. -/
structure SyncResult where
  copied : Nat
  skipped : Nat
  deleted : Nat
deriving DecidableEq

/-- The copy loop of `sync` (dir_ops.py, first `rglob` pass) over the plain
    files under source in traversal order.  A file already present in the
    destination counts as skipped.  For an absent file: under dry-run only the
    `copied` counter moves; otherwise the code executes
    `shutil.copy2(src_file, dst_file)`, but dir_ops.py never imports `shutil`,
    so the call raises an unhandled NameError, modelled as `Except.error ()`
    (the `copied` increment after it is never reached). -/
def copyLoop (dry : Bool) (dest : List (String × String)) :
    List String → SyncResult → Except Unit SyncResult
  | [], acc => .ok acc
  | f :: fs, acc =>
    if (dest.lookup f).isSome then
      copyLoop dry dest fs { acc with skipped := acc.skipped + 1 }
    else if dry then
      copyLoop dry dest fs { acc with copied := acc.copied + 1 }
    else .error ()

/-- The delete loop of `sync` (second `rglob` pass): a destination file with no
    counterpart under source is counted as deleted and, when not dry-run,
    unlinked.  Returns the counters and the surviving destination files. -/
def deleteLoop (dry : Bool) (srcFiles : List String) :
    List (String × String) → SyncResult → SyncResult × List (String × String)
  | [], r => (r, [])
  | (f, c) :: rest, r =>
    if srcFiles.contains f then
      let p := deleteLoop dry srcFiles rest r
      (p.1, (f, c) :: p.2)
    else
      let p := deleteLoop dry srcFiles rest { r with deleted := r.deleted + 1 }
      if dry then (p.1, (f, c) :: p.2) else p

/-- `dir_ops.py sync`, modelled over a flat directory: `source` is `none` when
    the source path does not exist or is not a directory (the early-return
    guard), otherwise the list of its plain files in traversal order; the
    destination is an association list from file name to contents.  The
    `mkdir` side effects touch no file contents and are not represented. -/
def sync (source : Option (List String)) (dest : List (String × String))
    (delete dry_run : Bool) : Except Unit (SyncResult × List (String × String)) :=
  match source with
  | none => .ok (⟨0, 0, 0⟩, dest)
  | some files =>
    match copyLoop dry_run dest files ⟨0, 0, 0⟩ with
    | .error e => .error e
    | .ok r =>
      if delete then .ok (deleteLoop dry_run files dest r)
      else .ok (r, dest)

example : sync (some ["a", "b"]) [("a", "x")] false true = .ok (⟨1, 1, 0⟩, [("a", "x")]) := by
  decide
example : sync (some ["a", "b"]) [("a", "x")] false false = .error () := by decide
example : sync (some ["a"]) [("a", "x"), ("z", "y")] true true
    = .ok (⟨0, 1, 1⟩, [("a", "x"), ("z", "y")]) := by decide
example : sync (some ["a"]) [("a", "x"), ("z", "y")] true false
    = .ok (⟨0, 1, 1⟩, [("a", "x")]) := by decide

/- ===================== file_ops.py : remove ===================== -/

/-- Kind of a filesystem node, as `is_dir()` distinguishes them. -/
inductive NodeKind
  | file
  | dir
deriving DecidableEq

/-- `p` is an initial segment of `q` (so `q` lies at or below `p`). -/
def leadsTo : List String → List String → Bool
  | [], _ => true
  | _ :: _, [] => false
  | a :: as, b :: bs => a == b && leadsTo as bs

/-- `Path.exists()` over the node-list filesystem model. -/
def pathExists (fs : List (List String × NodeKind)) (p : List String) : Bool :=
  fs.any fun n => n.1 == p

/-- `Path.is_dir()` over the node-list filesystem model. -/
def isDirNode (fs : List (List String × NodeKind)) (p : List String) : Bool :=
  fs.any fun n => n.1 == p && n.2 == NodeKind.dir

/-- `file_ops.py remove` over a filesystem given as a list of (path, kind)
    nodes, paths being component lists.  Returns the boolean result and the
    resulting filesystem: a missing path returns `force`; `rmtree` removes the
    whole subtree; `rmdir` on a non-empty directory raises OSError, which the
    function catches and converts to `False`; a plain file is unlinked. -/
def remove (fs : List (List String × NodeKind)) (path : List String)
    (recursive force : Bool) : Bool × List (List String × NodeKind) :=
  if !pathExists fs path then (force, fs)
  else if isDirNode fs path then
    if recursive then (true, fs.filter fun n => !leadsTo path n.1)
    else if fs.any (fun n => leadsTo path n.1 && !(n.1 == path)) then (false, fs)
    else (true, fs.filter fun n => !(n.1 == path))
  else (true, fs.filter fun n => !(n.1 == path))

example : remove [(["a"], NodeKind.file)] ["b"] false true = (true, [(["a"], NodeKind.file)]) := by
  decide
example : remove [(["a"], NodeKind.file)] ["b"] false false
    = (false, [(["a"], NodeKind.file)]) := by decide
example : remove [(["d"], NodeKind.dir), (["d", "x"], NodeKind.file)] ["d"] false false
    = (false, [(["d"], NodeKind.dir), (["d", "x"], NodeKind.file)]) := by decide
example : remove [(["d"], NodeKind.dir), (["d", "x"], NodeKind.file)] ["d"] true false
    = (true, []) := by decide

/- ===================== lemmas : stable sort ===================== -/

theorem mem_stableInsert {α : Type} (le : α → α → Bool) (a x : α) (l : List α) :
    x ∈ stableInsert le a l ↔ x = a ∨ x ∈ l := by
  induction l with
  | nil => simp [stableInsert]
  | cons b bs ih =>
    by_cases h : le a b = true
    · simp only [stableInsert, if_pos h, List.mem_cons]
    · simp only [stableInsert, if_neg h, List.mem_cons, ih]
      tauto

theorem mem_pySorted {α : Type} (le : α → α → Bool) (x : α) (l : List α) :
    x ∈ pySorted le l ↔ x ∈ l := by
  induction l with
  | nil => simp [pySorted]
  | cons a as ih => simp [pySorted, mem_stableInsert, ih]

theorem pairwise_stableInsert {α : Type} (le : α → α → Bool)
    (htrans : ∀ a b c, le a b = true → le b c = true → le a c = true)
    (htot : ∀ a b, le a b = true ∨ le b a = true)
    (a : α) (l : List α) (hl : l.Pairwise fun x y => le x y = true) :
    (stableInsert le a l).Pairwise fun x y => le x y = true := by
  induction l with
  | nil => simp [stableInsert]
  | cons b bs ih =>
    rcases List.pairwise_cons.mp hl with ⟨hb, hbs⟩
    by_cases h : le a b = true
    · rw [stableInsert, if_pos h]
      refine List.pairwise_cons.mpr ⟨?_, hl⟩
      intro x hx
      rcases List.mem_cons.mp hx with rfl | hx
      · exact h
      · exact htrans a b x h (hb x hx)
    · rw [stableInsert, if_neg h]
      refine List.pairwise_cons.mpr ⟨?_, ih hbs⟩
      intro x hx
      rcases (mem_stableInsert le a x bs).mp hx with rfl | hx
      · rcases htot x b with h1 | h1
        · exact absurd h1 h
        · exact h1
      · exact hb x hx

theorem pairwise_pySorted {α : Type} (le : α → α → Bool)
    (htrans : ∀ a b c, le a b = true → le b c = true → le a c = true)
    (htot : ∀ a b, le a b = true ∨ le b a = true) (l : List α) :
    (pySorted le l).Pairwise fun x y => le x y = true := by
  induction l with
  | nil => simp [pySorted]
  | cons a as ih => exact pairwise_stableInsert le htrans htot a _ ih

theorem lexLe_total (cs ds : List Char) : lexLe cs ds = true ∨ lexLe ds cs = true := by
  induction cs generalizing ds with
  | nil => left; rfl
  | cons a as ih =>
    cases ds with
    | nil => right; rfl
    | cons b bs =>
      by_cases hab : a = b
      · subst hab
        simpa [lexLe] using ih bs
      · rcases lt_or_gt_of_ne hab with h | h
        · left
          simp [lexLe, hab, h]
        · right
          simp [lexLe, Ne.symm hab, h]

theorem lexLe_trans (cs ds es : List Char) (h1 : lexLe cs ds = true)
    (h2 : lexLe ds es = true) : lexLe cs es = true := by
  induction cs generalizing ds es with
  | nil => rfl
  | cons a as ih =>
    cases ds with
    | nil => simp [lexLe] at h1
    | cons b bs =>
      cases es with
      | nil => simp [lexLe] at h2
      | cons c cs2 =>
        by_cases hab : a = b <;> by_cases hbc : b = c
        · subst hab; subst hbc
          simp only [lexLe, if_pos rfl] at h1 h2 ⊢
          exact ih bs cs2 h1 h2
        · subst hab
          simp only [lexLe, if_pos rfl] at h1
          have h2' : a < c := by simpa [lexLe, hbc] using h2
          simp [lexLe, hbc, h2']
        · subst hbc
          simp only [lexLe, if_pos rfl] at h2
          have h1' : a < b := by simpa [lexLe, hab] using h1
          simp [lexLe, hab, h1']
        · have h1' : a < b := by simpa [lexLe, hab] using h1
          have h2' : b < c := by simpa [lexLe, hbc] using h2
          have hac : a < c := lt_trans h1' h2'
          simp [lexLe, ne_of_lt hac, hac]

theorem entryKeyLe_total (a b : DirEntry) : entryKeyLe a b = true ∨ entryKeyLe b a = true := by
  unfold entryKeyLe
  by_cases h : a.isFile = b.isFile
  · rw [if_pos h, if_pos h.symm]
    exact lexLe_total _ _
  · rw [if_neg h, if_neg (Ne.symm h)]
    cases ha : a.isFile <;> cases hb : b.isFile <;> simp_all

theorem entryKeyLe_trans (a b c : DirEntry) (h1 : entryKeyLe a b = true)
    (h2 : entryKeyLe b c = true) : entryKeyLe a c = true := by
  cases ha : a.isFile <;> cases hb : b.isFile <;> cases hc : c.isFile <;>
    simp_all [entryKeyLe] <;> exact lexLe_trans _ _ _ h1 h2

/-- C9: list_directory returns exactly the immediate children that pass the
hidden-name filter (a dot-leading name is dropped iff `show_hidden` is off),
in an order sorted by the `(is_file, name.lower())` key; consequently every
directory precedes every file. -/
theorem list_directory_spec (entries : List DirEntry) (show_hidden : Bool) :
    (list_directory entries show_hidden).Pairwise (fun a b => entryKeyLe a b = true) ∧
    (∀ e : DirEntry, e ∈ list_directory entries show_hidden ↔
      e ∈ entries ∧ (show_hidden = true ∨ hiddenName e.name = false)) ∧
    (list_directory entries show_hidden).Pairwise
      (fun a b => a.isFile = true → b.isFile = true) := by
  have hp := pairwise_pySorted entryKeyLe entryKeyLe_trans entryKeyLe_total entries
  have hs : (list_directory entries show_hidden).Pairwise
      (fun a b => entryKeyLe a b = true) := hp.filter _
  refine ⟨hs, ?_, ?_⟩
  · intro e
    unfold list_directory
    rw [List.mem_filter, mem_pySorted]
    cases show_hidden <;> cases hh : hiddenName e.name <;> simp_all
  · refine hs.imp ?_
    intro a b h hfa
    cases hfb : b.isFile
    · simp_all [entryKeyLe]
    · rfl

theorem list_directory_spec_witness :
    ((list_directory [⟨"b.txt", true⟩, ⟨".hid", true⟩, ⟨"A", false⟩] false).Pairwise
      (fun a b => entryKeyLe a b = true)) ∧
    ((⟨".hid", true⟩ : DirEntry) ∈
        list_directory [⟨"b.txt", true⟩, ⟨".hid", true⟩, ⟨"A", false⟩] false ↔
      (⟨".hid", true⟩ : DirEntry) ∈
          [(⟨"b.txt", true⟩ : DirEntry), ⟨".hid", true⟩, ⟨"A", false⟩] ∧
        (false = true ∨ hiddenName ".hid" = false)) :=
  ⟨(list_directory_spec _ false).1, (list_directory_spec _ false).2.1 _⟩

/- ===================== lemmas : sync ===================== -/

theorem copyLoop_ok_not_dry (dest : List (String × String)) (files : List String)
    (acc r : SyncResult) (h : copyLoop false dest files acc = .ok r) :
    (∀ f ∈ files, (dest.lookup f).isSome = true) ∧
    r = ⟨acc.copied, acc.skipped + files.length, acc.deleted⟩ := by
  induction files generalizing acc with
  | nil =>
    simp only [copyLoop, Except.ok.injEq] at h
    subst h
    exact ⟨by simp, by simp⟩
  | cons f fs ih =>
    rw [copyLoop] at h
    by_cases hf : (dest.lookup f).isSome = true
    · rw [if_pos hf] at h
      obtain ⟨h1, h2⟩ := ih _ h
      obtain ⟨ac, ask, ad⟩ := acc
      refine ⟨?_, ?_⟩
      · intro g hg
        rcases List.mem_cons.mp hg with rfl | hg
        · exact hf
        · exact h1 g hg
      · rw [h2]
        simp only [SyncResult.mk.injEq, List.length_cons]
        exact ⟨trivial, by omega, trivial⟩
    · rw [if_neg hf] at h
      simp at h

theorem copyLoop_all_present (dest : List (String × String)) (files : List String)
    (acc : SyncResult) (h : ∀ f ∈ files, (dest.lookup f).isSome = true) :
    copyLoop false dest files acc = .ok ⟨acc.copied, acc.skipped + files.length, acc.deleted⟩ := by
  induction files generalizing acc with
  | nil => simp [copyLoop]
  | cons f fs ih =>
    rw [copyLoop, if_pos (h f (List.mem_cons_self f fs))]
    rw [ih _ fun g hg => h g (List.mem_cons_of_mem f hg)]
    obtain ⟨ac, ask, ad⟩ := acc
    simp only [Except.ok.injEq, SyncResult.mk.injEq, List.length_cons]
    exact ⟨trivial, by omega, trivial⟩

theorem copyLoop_error_of_missing (dest : List (String × String)) (files : List String)
    (acc : SyncResult) (h : (files.any fun f => (dest.lookup f).isNone) = true) :
    copyLoop false dest files acc = .error () := by
  induction files generalizing acc with
  | nil => simp at h
  | cons f fs ih =>
    rw [copyLoop]
    by_cases hf : (dest.lookup f).isSome = true
    · rw [if_pos hf]
      refine ih _ ?_
      simp only [List.any_cons, Bool.or_eq_true] at h
      rcases h with h | h
      · rw [Option.isNone_iff_eq_none] at h
        rw [h] at hf
        simp at hf
      · exact h
    · rw [if_neg hf]
      rfl

theorem copyLoop_dry (dest : List (String × String)) (files : List String)
    (acc : SyncResult) :
    copyLoop true dest files acc = .ok
      ⟨acc.copied + files.countP (fun f => (dest.lookup f).isNone),
       acc.skipped + files.countP (fun f => (dest.lookup f).isSome),
       acc.deleted⟩ := by
  induction files generalizing acc with
  | nil => simp [copyLoop]
  | cons f fs ih =>
    rw [copyLoop]
    obtain ⟨ac, ask, ad⟩ := acc
    by_cases hf : (dest.lookup f).isSome = true
    · have hn : ((dest.lookup f).isNone : Bool) = false := by
        cases h' : dest.lookup f <;> simp_all
      rw [if_pos hf, ih]
      simp only [Except.ok.injEq, SyncResult.mk.injEq, List.countP_cons, hf, hn,
        if_true, if_false, Bool.false_eq_true]
      exact ⟨by omega, by omega, trivial⟩
    · have hf' : ((dest.lookup f).isSome : Bool) = false := by
        cases h' : dest.lookup f <;> simp_all
      have hn : ((dest.lookup f).isNone : Bool) = true := by
        cases h' : dest.lookup f <;> simp_all
      rw [if_neg hf, if_pos rfl, ih]
      simp only [Except.ok.injEq, SyncResult.mk.injEq, List.countP_cons, hf', hn,
        if_true, if_false, Bool.false_eq_true]
      exact ⟨by omega, by omega, trivial⟩

theorem deleteLoop_dry (srcFiles : List String) (dest : List (String × String))
    (r : SyncResult) :
    deleteLoop true srcFiles dest r =
      (⟨r.copied, r.skipped, r.deleted + dest.countP fun p => !srcFiles.contains p.1⟩,
       dest) := by
  induction dest generalizing r with
  | nil => simp [deleteLoop]
  | cons p rest ih =>
    obtain ⟨f, c⟩ := p
    obtain ⟨rc, rs, rd⟩ := r
    rw [deleteLoop]
    by_cases hf : srcFiles.contains f = true
    · rw [if_pos hf, ih]
      simp only [List.countP_cons, hf, Bool.not_true, Prod.mk.injEq, SyncResult.mk.injEq,
        if_false, Bool.false_eq_true]
      exact ⟨⟨trivial, trivial, by omega⟩, trivial⟩
    · rw [if_neg hf, if_pos rfl, ih]
      have hf' : srcFiles.contains f = false := by
        cases h' : srcFiles.contains f
        · rfl
        · exact absurd h' hf
      simp only [List.countP_cons, hf', Bool.not_false, Prod.mk.injEq, SyncResult.mk.injEq,
        if_true]
      exact ⟨⟨trivial, trivial, by omega⟩, trivial⟩

theorem deleteLoop_copied (dry : Bool) (srcFiles : List String)
    (dest : List (String × String)) (r : SyncResult) :
    (deleteLoop dry srcFiles dest r).1.copied = r.copied := by
  induction dest generalizing r with
  | nil => simp [deleteLoop]
  | cons p rest ih =>
    obtain ⟨f, c⟩ := p
    rw [deleteLoop]
    by_cases hf : srcFiles.contains f = true
    · rw [if_pos hf]
      exact ih r
    · rw [if_neg hf]
      cases dry
      · rw [if_neg (by simp)]
        exact ih _
      · rw [if_pos rfl]
        exact ih _

/- ===================== claims : sync and remove ===================== -/

/-- C2: a dry-run sync returns successfully, never changes the destination
file map (files that would be copied remain absent, files that would be
deleted remain present), and still counts those files: `copied` counts the
source files absent from the destination and, when `delete` is set, `deleted`
counts the destination files absent from the source. -/
theorem sync_dry_run_frame (files : List String) (dest : List (String × String)) (del : Bool) :
    sync none dest del true = .ok (⟨0, 0, 0⟩, dest) ∧
    sync (some files) dest del true = .ok
      (⟨files.countP (fun f => (dest.lookup f).isNone),
        files.countP (fun f => (dest.lookup f).isSome),
        if del then dest.countP (fun p => !files.contains p.1) else 0⟩, dest) := by
  refine ⟨rfl, ?_⟩
  simp only [sync]
  rw [copyLoop_dry]
  cases del
  · simp
  · simp [deleteLoop_dry]

/-- C3: with `dry_run=False` the copy step executes `shutil.copy2`, but
dir_ops.py never imports `shutil`: whenever some plain file under source has
no counterpart under the destination, sync raises an unhandled NameError, and
consequently a non-dry sync can only return successfully with `copied = 0`. -/
theorem sync_never_copies (files : List String) (dest : List (String × String)) (del : Bool) :
    ((files.any fun f => (dest.lookup f).isNone) = true →
      sync (some files) dest del false = .error ()) ∧
    (∀ (source : Option (List String)) (r : SyncResult) (d : List (String × String)),
      sync source dest del false = .ok (r, d) → r.copied = 0) := by
  constructor
  · intro h
    simp only [sync]
    rw [copyLoop_error_of_missing dest files _ h]
  · intro source r d h
    cases source with
    | none =>
      simp only [sync, Except.ok.injEq, Prod.mk.injEq] at h
      rw [← h.1]
    | some fs =>
      simp only [sync] at h
      cases hcl : copyLoop false dest fs ⟨0, 0, 0⟩ with
      | error e =>
        rw [hcl] at h
        simp at h
      | ok r' =>
        rw [hcl] at h
        obtain ⟨-, h2⟩ := copyLoop_ok_not_dry dest fs _ _ hcl
        cases del
        · simp only [Bool.false_eq_true, if_false, Except.ok.injEq, Prod.mk.injEq] at h
          rw [← h.1, h2]
        · simp only [if_true, Except.ok.injEq] at h
          have hc := congrArg (fun p => p.1.copied) h
          simp only at hc
          rw [← hc, deleteLoop_copied, h2]

theorem sync_never_copies_witness :
    ((["a"].any fun f => (([] : List (String × String)).lookup f).isNone) = true) ∧
    sync (some ["a"]) [] false false = .error () :=
  ⟨by decide, (sync_never_copies ["a"] [] false).1 (by decide)⟩

/-- C1 as stated fails on the code: with the single source file "a" already
present in the destination, the first run returns `copied=0, skipped=1` and
leaves the destination unchanged, so the second identical run returns
`skipped=1`, which differs from the first run's `copied=0`. -/
theorem sync_idempotence_counterexample :
    (match sync (some ["a"]) [("a", "x")] false false with
     | .ok (r1, d1) =>
       match sync (some ["a"]) d1 false false with
       | .ok (r2, _) => r2.copied = 0 ∧ ¬ r2.skipped = r1.copied
       | .error _ => False
     | .error _ => False) := by
  show (0 : Nat) = 0 ∧ ¬ (1 : Nat) = 0
  exact ⟨rfl, by decide⟩

/-- C1 amended: whenever the first non-dry run with `delete=False` returns
successfully, a second identical run also succeeds with `copied = 0` and
`skipped` equal to the first run's `copied + skipped` total (with the missing
shutil import a successful first run necessarily has `copied = 0`, so this total is the
number of source files, all of which were skipped). -/
theorem sync_second_run_skips_all (files : List String) (dest d1 : List (String × String))
    (r1 : SyncResult) (h : sync (some files) dest false false = .ok (r1, d1)) :
    sync (some files) d1 false false = .ok (⟨0, r1.copied + r1.skipped, 0⟩, d1) := by
  simp only [sync] at h ⊢
  cases hcl : copyLoop false dest files ⟨0, 0, 0⟩ with
  | error e =>
    rw [hcl] at h
    simp at h
  | ok r' =>
    rw [hcl] at h
    simp only [Bool.false_eq_true, if_false, Except.ok.injEq, Prod.mk.injEq] at h
    obtain ⟨hr, hd⟩ := h
    obtain ⟨hall, h2⟩ := copyLoop_ok_not_dry dest files _ _ hcl
    subst hd
    rw [copyLoop_all_present dest files ⟨0, 0, 0⟩ hall]
    rw [← hr, h2]
    simp

theorem sync_second_run_skips_all_witness :
    sync (some ["a"]) [("a", "x")] false false = .ok (⟨0, 1, 0⟩, [("a", "x")]) ∧
    sync (some ["a"]) [("a", "x")] false false = .ok (⟨0, 0 + 1, 0⟩, [("a", "x")]) :=
  ⟨by decide, sync_second_run_skips_all ["a"] [("a", "x")] [("a", "x")] ⟨0, 1, 0⟩ (by decide)⟩

/-- C10: removing a path that does not exist performs no filesystem mutation
and returns exactly the value of the `force` flag. -/
theorem remove_missing_path (fs : List (List String × NodeKind)) (path : List String)
    (recursive force : Bool) (h : pathExists fs path = false) :
    remove fs path recursive force = (force, fs) := by
  unfold remove
  rw [h]
  rfl

theorem remove_missing_path_witness :
    pathExists [(["a"], NodeKind.file)] ["b"] = false ∧
    remove [(["a"], NodeKind.file)] ["b"] false true = (true, [(["a"], NodeKind.file)]) :=
  ⟨by decide, remove_missing_path _ _ false true (by decide)⟩

/- ===================== lemmas : size filter ===================== -/

/-- The ten ASCII digit characters. -/
def digitChars : List Char := ['0', '1', '2', '3', '4', '5', '6', '7', '8', '9']

theorem digit_isDigit (c : Char) (h : c ∈ digitChars) : c.isDigit = true := by
  fin_cases h <;> decide

theorem digit_toUpper (c : Char) (h : c ∈ digitChars) : c.toUpper = c := by
  fin_cases h <;> decide

theorem digit_not_space (c : Char) (h : c ∈ digitChars) : c.isWhitespace = false := by
  fin_cases h <;> decide

theorem digit_ne (c : Char) (h : c ∈ digitChars) :
    ¬ c = '+' ∧ ¬ c = '-' ∧ ¬ '>' = c ∧ ¬ '<' = c ∧ ¬ '=' = c := by
  fin_cases h <;> decide

/-- The characters used by operators and unit suffixes. -/
def opUnitChars : List Char := ['>', '<', '=', 'K', 'M', 'G', 'T', 'B']

theorem opUnit_facts (c : Char) (h : c ∈ opUnitChars) :
    c.isWhitespace = false ∧ c.toUpper = c := by
  fin_cases h <;> decide

theorem unit_chars_sub (u : List Char) (m : Int) (hu : (u, m) ∈ unitsList) :
    ∀ c ∈ u, c ∈ opUnitChars := by
  simp only [unitsList, List.mem_cons, List.not_mem_nil, or_false, Prod.mk.injEq] at hu
  rcases hu with ⟨rfl, -⟩ | ⟨rfl, -⟩ | ⟨rfl, -⟩ | ⟨rfl, -⟩ | ⟨rfl, -⟩ <;> decide

theorem dropWhile_eq_self_of {α : Type} (p : α → Bool) (l : List α)
    (h : ∀ c ∈ l, p c = false) : l.dropWhile p = l := by
  cases l with
  | nil => rfl
  | cons a l =>
    rw [List.dropWhile_cons, h a (List.mem_cons_self a l)]
    simp

theorem pyStrip_eq_self (cs : List Char) (h : ∀ c ∈ cs, c.isWhitespace = false) :
    pyStrip cs = cs := by
  unfold pyStrip
  rw [dropWhile_eq_self_of _ _ h,
    dropWhile_eq_self_of _ _ fun c hc => h c (List.mem_reverse.mp hc),
    List.reverse_reverse]

theorem map_eq_self_of {α : Type} {f : α → α} (l : List α) (h : ∀ c ∈ l, f c = c) :
    l.map f = l := by
  induction l with
  | nil => rfl
  | cons a l ih =>
    rw [List.map_cons, h a (List.mem_cons_self a l),
      ih fun c hc => h c (List.mem_cons_of_mem a hc)]

theorem pyNorm_eq_self (cs : List Char) (h1 : ∀ c ∈ cs, c.isWhitespace = false)
    (h2 : ∀ c ∈ cs, c.toUpper = c) : pyUpper (pyStrip cs) = cs := by
  rw [pyStrip_eq_self cs h1]
  exact map_eq_self_of cs h2

theorem parseSign_digits (c : Char) (r : List Char) (h1 : ¬ c = '+') (h2 : ¬ c = '-') :
    parseSign (c :: r) = (1, c :: r) := by
  simp [parseSign, h1, h2]

theorem pyFloat_digits (ds : List Char) (hne : ds ≠ [])
    (hdig : ∀ c ∈ ds, c ∈ digitChars) :
    pyFloat ds = some ((digitsVal ds : Int), 1) := by
  obtain ⟨c, r, rfl⟩ := List.exists_cons_of_ne_nil hne
  have hc := digit_ne c (hdig c (List.mem_cons_self c r))
  have hsign : parseSign (c :: r) = (1, c :: r) := parseSign_digits c r hc.1 hc.2.1
  have htake : (c :: r).takeWhile Char.isDigit = c :: r :=
    List.takeWhile_eq_self_iff.mpr fun x hx => digit_isDigit x (hdig x hx)
  have hdrop : (c :: r).dropWhile Char.isDigit = [] :=
    List.dropWhile_eq_nil_iff.mpr fun x hx => digit_isDigit x (hdig x hx)
  simp only [pyFloat, hsign]
  simp only [pyFloatBody, hdrop, htake]
  simp [pyFloatTail]

theorem isSuffixOf_append (u xs : List Char) : u.isSuffixOf (xs ++ u) = true :=
  List.isSuffixOf_iff_suffix.mpr (List.suffix_append xs u)

theorem isSuffixOf_ne_same_length (u1 u2 xs : List Char) (hne : u1 ≠ u2)
    (hl : u1.length = u2.length) : u1.isSuffixOf (xs ++ u2) = false := by
  by_contra h
  rw [Bool.not_eq_false, List.isSuffixOf_iff_suffix] at h
  obtain ⟨t, ht⟩ := h
  exact hne (List.append_inj' ht hl).2

theorem isSuffixOf_two_b (x : Char) (ds : List Char)
    (hdig : ∀ c ∈ ds, c ∈ digitChars) (hx : x ∉ digitChars) :
    [x, 'B'].isSuffixOf (ds ++ ['B']) = false := by
  by_contra h
  rw [Bool.not_eq_false, List.isSuffixOf_iff_suffix] at h
  obtain ⟨t, ht⟩ := h
  have ht' : (t ++ [x]) ++ ['B'] = ds ++ ['B'] := by simpa [List.append_assoc] using ht
  obtain ⟨h1, -⟩ := List.append_inj' ht' rfl
  have hmem : x ∈ ds := h1 ▸ List.mem_append_right t (List.mem_singleton_self x)
  exact hx (hdig x hmem)

theorem take_append_unit (ds u : List Char) :
    (ds ++ u).take ((ds ++ u).length - u.length) = ds := by
  rw [List.length_append, Nat.add_sub_cancel]
  exact List.take_left ds u

theorem intOfFloat_one (x : Int) : intOfFloat (x, 1) = x := by
  simp [intOfFloat]

theorem unitLoop_digits (op : String) (ds : List Char) (u : List Char) (m : Int)
    (hne : ds ≠ []) (hdig : ∀ c ∈ ds, c ∈ digitChars) (hu : (u, m) ∈ unitsList) :
    unitLoop op (ds ++ u) unitsList = (op, (digitsVal ds : Int) * m) := by
  have hfl : pyFloat ds = some ((digitsVal ds : Int), 1) := pyFloat_digits ds hne hdig
  simp only [unitsList, List.mem_cons, List.not_mem_nil, or_false, Prod.mk.injEq] at hu
  rcases hu with ⟨rfl, rfl⟩ | ⟨rfl, rfl⟩ | ⟨rfl, rfl⟩ | ⟨rfl, rfl⟩ | ⟨rfl, rfl⟩
  · simp [unitLoop, unitsList, isSuffixOf_append, take_append_unit, hfl, intOfFloat_one]
  · simp [unitLoop, unitsList, isSuffixOf_append, take_append_unit, hfl, intOfFloat_one,
      isSuffixOf_ne_same_length ['K', 'B'] ['M', 'B'] ds (by decide) (by decide)]
  · simp [unitLoop, unitsList, isSuffixOf_append, take_append_unit, hfl, intOfFloat_one,
      isSuffixOf_ne_same_length ['K', 'B'] ['G', 'B'] ds (by decide) (by decide),
      isSuffixOf_ne_same_length ['M', 'B'] ['G', 'B'] ds (by decide) (by decide)]
  · simp [unitLoop, unitsList, isSuffixOf_append, take_append_unit, hfl, intOfFloat_one,
      isSuffixOf_ne_same_length ['K', 'B'] ['T', 'B'] ds (by decide) (by decide),
      isSuffixOf_ne_same_length ['M', 'B'] ['T', 'B'] ds (by decide) (by decide),
      isSuffixOf_ne_same_length ['G', 'B'] ['T', 'B'] ds (by decide) (by decide)]
  · simp [unitLoop, unitsList, isSuffixOf_append, take_append_unit, hfl, intOfFloat_one,
      isSuffixOf_two_b 'K' ds hdig (by decide), isSuffixOf_two_b 'M' ds hdig (by decide),
      isSuffixOf_two_b 'G' ds hdig (by decide), isSuffixOf_two_b 'T' ds hdig (by decide)]

theorem opSplit_default (c : Char) (r : List Char) (h1 : ¬ '>' = c) (h2 : ¬ '<' = c) :
    opSplit (c :: r) = (">", c :: r) := by
  simp [opSplit, leadsWith, h1, h2]

theorem opSplit_gt (c : Char) (r : List Char) (h : ¬ '=' = c) :
    opSplit ('>' :: c :: r) = (">", c :: r) := by
  simp [opSplit, leadsWith, h]

theorem opSplit_lt (c : Char) (r : List Char) (h : ¬ '=' = c) :
    opSplit ('<' :: c :: r) = ("<", c :: r) := by
  simp [opSplit, leadsWith, h]

theorem opSplit_ge (v : List Char) : opSplit ('>' :: '=' :: v) = (">=", v) := by
  simp [opSplit, leadsWith]

theorem opSplit_le (v : List Char) : opSplit ('<' :: '=' :: v) = ("<=", v) := by
  simp [opSplit, leadsWith]

/-- C4: for a size spec made of an optional comparison operator (default `>`
when omitted), an integer numeral below 2^53, and one of the unit suffixes
B/KB/MB/GB/TB, `_parse_size_filter` returns that operator together with the
number scaled by the unit's binary multiple (each unit 1024 times the
previous, longer suffixes matched before shorter ones); in particular `>1MB`
parses to `(>, 1048576)` and `<=2KB` to `(<=, 2048)`.  The 2^53 bound keeps
the statement inside the range where CPython's double conversion of the
numeral is exact and the power-of-two multiplication stays exact, so the
exact-fraction float model agrees with the program; larger numerals are
perturbed by double rounding (float("9"*20) is 10^20) and fractional ones by
the `int` truncation (see the counterexample). -/
theorem parse_size_filter_spec (ds : List Char) (u : List Char) (m : Int)
    (hne : ds ≠ []) (hdig : ∀ c ∈ ds, c ∈ digitChars)
    (hsmall : digitsVal ds < 2 ^ 53) (hu : (u, m) ∈ unitsList) :
    parse_size_filter ⟨ds ++ u⟩ = (">", (digitsVal ds : Int) * m) ∧
    parse_size_filter ⟨'>' :: (ds ++ u)⟩ = (">", (digitsVal ds : Int) * m) ∧
    parse_size_filter ⟨'>' :: '=' :: (ds ++ u)⟩ = (">=", (digitsVal ds : Int) * m) ∧
    parse_size_filter ⟨'<' :: (ds ++ u)⟩ = ("<", (digitsVal ds : Int) * m) ∧
    parse_size_filter ⟨'<' :: '=' :: (ds ++ u)⟩ = ("<=", (digitsVal ds : Int) * m) ∧
    parse_size_filter ">1MB" = (">", 1048576) ∧
    parse_size_filter "<=2KB" = ("<=", 2048) := by
  obtain ⟨c, ds', rfl⟩ := List.exists_cons_of_ne_nil hne
  have hcd := hdig c (List.mem_cons_self c ds')
  have hcne := digit_ne c hcd
  have husub := unit_chars_sub u m hu
  have hspace : ∀ x ∈ c :: (ds' ++ u), x.isWhitespace = false := by
    intro x hx
    rcases List.mem_cons.mp hx with rfl | hx
    · exact digit_not_space x hcd
    · rcases List.mem_append.mp hx with hx | hx
      · exact digit_not_space x (hdig x (List.mem_cons_of_mem c hx))
      · exact (opUnit_facts x (husub x hx)).1
  have hupper : ∀ x ∈ c :: (ds' ++ u), x.toUpper = x := by
    intro x hx
    rcases List.mem_cons.mp hx with rfl | hx
    · exact digit_toUpper x hcd
    · rcases List.mem_append.mp hx with hx | hx
      · exact digit_toUpper x (hdig x (List.mem_cons_of_mem c hx))
      · exact (opUnit_facts x (husub x hx)).2
  have hnorm : pyUpper (pyStrip (c :: (ds' ++ u))) = c :: (ds' ++ u) :=
    pyNorm_eq_self _ hspace hupper
  have hgrow : ∀ a : Char, a.isWhitespace = false → a.toUpper = a →
      pyUpper (pyStrip (a :: c :: (ds' ++ u))) = a :: c :: (ds' ++ u) := by
    intro a h1 h2
    refine pyNorm_eq_self _ ?_ ?_
    · intro x hx
      rcases List.mem_cons.mp hx with rfl | hx
      · exact h1
      · exact hspace x hx
    · intro x hx
      rcases List.mem_cons.mp hx with rfl | hx
      · exact h2
      · exact hupper x hx
  have hgrow2 : ∀ a b : Char, a.isWhitespace = false → a.toUpper = a →
      b.isWhitespace = false → b.toUpper = b →
      pyUpper (pyStrip (a :: b :: c :: (ds' ++ u))) = a :: b :: c :: (ds' ++ u) := by
    intro a b ha1 ha2 hb1 hb2
    refine pyNorm_eq_self _ ?_ ?_
    · intro x hx
      rcases List.mem_cons.mp hx with rfl | hx
      · exact ha1
      · rcases List.mem_cons.mp hx with rfl | hx
        · exact hb1
        · exact hspace x hx
    · intro x hx
      rcases List.mem_cons.mp hx with rfl | hx
      · exact ha2
      · rcases List.mem_cons.mp hx with rfl | hx
        · exact hb2
        · exact hupper x hx
  refine ⟨?_, ?_, ?_, ?_, ?_, by decide, by decide⟩
  · simp only [parse_size_filter]
    rw [List.cons_append, hnorm, opSplit_default c (ds' ++ u) hcne.2.2.1 hcne.2.2.2.1]
    exact unitLoop_digits ">" (c :: ds') u m hne hdig hu
  · simp only [parse_size_filter]
    rw [List.cons_append, hgrow '>' (by decide) (by decide),
      opSplit_gt c (ds' ++ u) hcne.2.2.2.2]
    exact unitLoop_digits ">" (c :: ds') u m hne hdig hu
  · simp only [parse_size_filter]
    rw [List.cons_append, hgrow2 '>' '=' (by decide) (by decide) (by decide) (by decide),
      opSplit_ge]
    exact unitLoop_digits ">=" (c :: ds') u m hne hdig hu
  · simp only [parse_size_filter]
    rw [List.cons_append, hgrow '<' (by decide) (by decide),
      opSplit_lt c (ds' ++ u) hcne.2.2.2.2]
    exact unitLoop_digits "<" (c :: ds') u m hne hdig hu
  · simp only [parse_size_filter]
    rw [List.cons_append, hgrow2 '<' '=' (by decide) (by decide) (by decide) (by decide),
      opSplit_le]
    exact unitLoop_digits "<=" (c :: ds') u m hne hdig hu

theorem parse_size_filter_spec_witness :
    parse_size_filter ⟨['1'] ++ ['M', 'B']⟩ = (">", (digitsVal ['1'] : Int) * 1024 ^ 2) ∧
    parse_size_filter ">1MB" = (">", 1048576) :=
  ⟨(parse_size_filter_spec ['1'] ['M', 'B'] (1024 ^ 2) (by decide) (by decide) (by decide)
      (by decide)).1,
   (parse_size_filter_spec ['1'] ['M', 'B'] (1024 ^ 2) (by decide) (by decide) (by decide)
      (by decide)).2.2.2.2.2.1⟩

theorem unitLoop_fallback (op : String) (v : List Char) (units : List (List Char × Int))
    (hfl : ∀ p ∈ units, p.1.isSuffixOf v = true →
      pyFloat (v.take (v.length - p.1.length)) = none)
    (hint : pyInt v = none) :
    unitLoop op v units = (">", 0) := by
  induction units with
  | nil => simp [unitLoop, intFallback, hint]
  | cons p rest ih =>
    obtain ⟨u, m⟩ := p
    rw [unitLoop]
    by_cases hs : u.isSuffixOf v = true
    · rw [if_pos hs, hfl (u, m) (List.mem_cons_self _ _) hs]
      simp [intFallback, hint]
    · rw [if_neg hs]
      exact ih fun q hq hsq => hfl q (List.mem_cons_of_mem _ hq) hsq

/-- C7: when the numeric portion fails to parse — every unit suffix that
matches the value string has a numeric head that fails float conversion, and
the whole value string fails integer conversion — `_parse_size_filter` does
not fail but returns the permissive default `(">", 0)`, which matches every
positive size. -/
theorem parse_size_filter_default (s : String)
    (hfl : ∀ p ∈ unitsList,
      p.1.isSuffixOf (opSplit (pyUpper (pyStrip s.data))).2 = true →
      pyFloat ((opSplit (pyUpper (pyStrip s.data))).2.take
        ((opSplit (pyUpper (pyStrip s.data))).2.length - p.1.length)) = none)
    (hint : pyInt (opSplit (pyUpper (pyStrip s.data))).2 = none) :
    parse_size_filter s = (">", 0) ∧
    ∀ n : Int, 0 < n → matches_size n (">", 0) = true := by
  refine ⟨?_, ?_⟩
  · simp only [parse_size_filter]
    exact unitLoop_fallback _ _ unitsList hfl hint
  · intro n h
    simp [matches_size, h]

theorem parse_size_filter_default_witness :
    parse_size_filter ">abcMB" = (">", 0) ∧ matches_size 7 (">", 0) = true :=
  ⟨(parse_size_filter_default ">abcMB" (by decide) (by decide)).1,
   (parse_size_filter_default ">abcMB" (by decide) (by decide)).2 7 (by decide)⟩

theorem parseSign_fst_no_dash (cs : List Char) (h : '-' ∉ cs) : (parseSign cs).1 = 1 := by
  cases cs with
  | nil => rfl
  | cons c r =>
    have hm : ¬ c = '-' := fun hh => h (hh ▸ List.mem_cons_self c r)
    by_cases hp : c = '+'
    · simp [parseSign, hp]
    · simp [parseSign, hp, hm]

theorem parseSign_snd_subset (cs : List Char) : ∀ c ∈ (parseSign cs).2, c ∈ cs := by
  intro c hc
  cases cs with
  | nil => simp [parseSign] at hc
  | cons a r =>
    by_cases hp : a = '+'
    · subst hp
      simp only [parseSign, if_pos rfl] at hc
      exact List.mem_cons_of_mem _ hc
    · by_cases hm : a = '-'
      · subst hm
        simp [parseSign] at hc
        exact List.mem_cons_of_mem _ hc
      · simpa [parseSign, hp, hm] using hc

theorem pyFloatTail_nonneg (d1 d2 rest : List Char) (h : '-' ∉ rest) (n : Int) (d : Nat)
    (he : pyFloatTail 1 d1 d2 rest = some (n, d)) : 0 ≤ n := by
  unfold pyFloatTail at he
  by_cases hemp : (d1.isEmpty && d2.isEmpty) = true
  · rw [if_pos hemp] at he
    simp at he
  · rw [if_neg hemp] at he
    cases rest with
    | nil =>
      simp only [Option.some.injEq, Prod.mk.injEq] at he
      rw [← he.1]
      positivity
    | cons c r =>
      by_cases hE : c = 'E'
      · subst hE
        have h' : '-' ∉ r := fun hr => h (List.mem_cons_of_mem _ hr)
        have hfst := parseSign_fst_no_dash r h'
        simp only [hfst] at he
        by_cases hcond : (((parseSign r).2.takeWhile Char.isDigit).isEmpty
            || !((parseSign r).2.dropWhile Char.isDigit).isEmpty) = true
        · rw [if_true, if_pos hcond] at he
          simp at he
        · rw [if_true, if_neg hcond, if_pos (by norm_num : (0 : Int) ≤ 1)] at he
          simp only [Option.some.injEq, Prod.mk.injEq] at he
          rw [← he.1]
          positivity
      · simp [hE] at he

theorem pyFloat_nonneg (cs : List Char) (h : '-' ∉ cs) (n : Int) (d : Nat)
    (he : pyFloat cs = some (n, d)) : 0 ≤ n := by
  rw [pyFloat, parseSign_fst_no_dash cs h] at he
  have h1 : '-' ∉ (parseSign cs).2 := fun hm => h (parseSign_snd_subset cs '-' hm)
  cases hdw : (parseSign cs).2.dropWhile Char.isDigit with
  | nil =>
    simp only [pyFloatBody, hdw] at he
    exact pyFloatTail_nonneg _ _ _ (by simp) n d he
  | cons c r =>
    simp only [pyFloatBody, hdw] at he
    have hsub : '-' ∉ c :: r := fun hm =>
      h1 ((List.dropWhile_sublist Char.isDigit).mem (hdw ▸ hm))
    by_cases hc : c = '.'
    · rw [if_pos hc] at he
      refine pyFloatTail_nonneg _ _ _ ?_ n d he
      intro hm
      exact hsub (List.mem_cons_of_mem c ((List.dropWhile_sublist Char.isDigit).mem hm))
    · rw [if_neg hc] at he
      exact pyFloatTail_nonneg _ _ _ hsub n d he

theorem pyInt_nonneg (cs : List Char) (h : '-' ∉ cs) (n : Int) (he : pyInt cs = some n) :
    0 ≤ n := by
  unfold pyInt at he
  by_cases hc : ((parseSign cs).2.isEmpty || !(parseSign cs).2.all Char.isDigit) = true
  · rw [if_pos hc] at he
    simp at he
  · rw [if_neg hc] at he
    simp only [Option.some.injEq] at he
    rw [← he, parseSign_fst_no_dash cs h]
    positivity

theorem intFallback_nonneg (op : String) (v : List Char) (h : '-' ∉ v) :
    0 ≤ (intFallback op v).2 := by
  unfold intFallback
  cases hi : pyInt v with
  | none => simp
  | some n => simpa using pyInt_nonneg v h n hi

theorem unitLoop_nonneg (op : String) (v : List Char) (units : List (List Char × Int))
    (h : '-' ∉ v) (hm : ∀ p ∈ units, 0 ≤ p.2) :
    0 ≤ (unitLoop op v units).2 := by
  induction units with
  | nil => exact intFallback_nonneg op v h
  | cons p rest ih =>
    obtain ⟨u, mlt⟩ := p
    rw [unitLoop]
    by_cases hs : u.isSuffixOf v = true
    · rw [if_pos hs]
      cases hq : pyFloat (v.take (v.length - u.length)) with
      | none => exact intFallback_nonneg op v h
      | some q =>
        obtain ⟨qn, qd⟩ := q
        have hn : 0 ≤ qn :=
          pyFloat_nonneg _ (fun hmem => h (List.mem_of_mem_take hmem)) qn qd hq
        have hmlt : 0 ≤ mlt := hm (u, mlt) (List.mem_cons_self _ _)
        simpa [intOfFloat] using
          Int.tdiv_nonneg (mul_nonneg hn hmlt) (Int.natCast_nonneg qd)
    · rw [if_neg hs]
      exact ih fun q hq => hm q (List.mem_cons_of_mem _ hq)

theorem opSplit_snd_subset (cs : List Char) : ∀ c ∈ (opSplit cs).2, c ∈ cs := by
  intro c hc
  unfold opSplit at hc
  split at hc
  · exact List.mem_of_mem_drop hc
  · split at hc
    · exact List.mem_of_mem_drop hc
    · split at hc
      · exact List.mem_of_mem_drop hc
      · split at hc
        · exact List.mem_of_mem_drop hc
        · exact hc

/-- C6 as stated fails (see the counterexample theorem): a minus sign in the
numeric portion propagates into a negative threshold.  Amended: for every
input string whose normalized text — stripped and uppercased, exactly as the
parser sees it — does not contain the minus character, the SizeFilter
returned by `_parse_size_filter` has a non-negative threshold. -/
theorem parse_size_filter_nonneg (s : String)
    (h : '-' ∉ pyUpper (pyStrip s.data)) : 0 ≤ (parse_size_filter s).2 := by
  simp only [parse_size_filter]
  refine unitLoop_nonneg _ _ unitsList ?_ ?_
  · exact fun hm => h (opSplit_snd_subset _ '-' hm)
  · intro p hp
    fin_cases hp <;> norm_num

/-- C6 counterexample: `Parse("-5KB")` returns threshold `-5120 < 0`. -/
theorem parse_size_filter_negative_counterexample :
    parse_size_filter "-5KB" = (">", -5120) ∧ (-5120 : Int) < 0 :=
  ⟨by decide, by decide⟩

theorem parse_size_filter_nonneg_witness :
    '-' ∉ pyUpper (pyStrip (">1MB" : String).data) ∧ 0 ≤ (parse_size_filter ">1MB").2 :=
  ⟨by decide, parse_size_filter_nonneg ">1MB" (by decide)⟩

/-- C5: `_matches_size` applies the filter's comparison operator directly to
the size and threshold; any operator outside the four comparisons yields
`False`; and the round trip through `Parse(">1MB")` classifies 1048577 as a
match and 1048576 as a non-match. -/
theorem matches_size_spec (s t : Int) (op : String) :
    matches_size s (">", t) = decide (s > t) ∧
    matches_size s (">=", t) = decide (s ≥ t) ∧
    matches_size s ("<", t) = decide (s < t) ∧
    matches_size s ("<=", t) = decide (s ≤ t) ∧
    (¬ op = ">" → ¬ op = ">=" → ¬ op = "<" → ¬ op = "<=" →
      matches_size s (op, t) = false) ∧
    matches_size 1048577 (parse_size_filter ">1MB") = true ∧
    matches_size 1048576 (parse_size_filter ">1MB") = false := by
  refine ⟨by simp [matches_size], ?_, ?_, ?_, ?_, by decide, by decide⟩
  · simp only [matches_size]
    rw [if_neg (by decide : ¬ (">=" : String) = ">"), if_true]
  · simp only [matches_size]
    rw [if_neg (by decide : ¬ ("<" : String) = ">"),
      if_neg (by decide : ¬ ("<" : String) = ">="), if_true]
  · simp only [matches_size]
    rw [if_neg (by decide : ¬ ("<=" : String) = ">"),
      if_neg (by decide : ¬ ("<=" : String) = ">="),
      if_neg (by decide : ¬ ("<=" : String) = "<"), if_true]
  · intro h1 h2 h3 h4
    simp [matches_size, h1, h2, h3, h4]

theorem matches_size_spec_witness :
    matches_size 5 ("!=", 3) = false ∧
    matches_size 1048577 (parse_size_filter ">1MB") = true :=
  ⟨(matches_size_spec 5 3 "!=").2.2.2.2.1 (by decide) (by decide) (by decide) (by decide),
   (matches_size_spec 5 3 "!=").2.2.2.2.2.1⟩

/-- C4 counterexample: for the parseable number 0.3 the code truncates
`int(0.3 * 1024)`: `Parse("0.3KB")` yields threshold 307, not 0.3·1024 = 307.2,
so the threshold is not "number times 1024 raised to the unit's rank" there
(numerals at or above 2^53 are likewise perturbed, by double rounding). -/
theorem parse_size_filter_truncation_counterexample :
    parse_size_filter "0.3KB" = (">", 307) ∧ ¬ ((307 : ℚ) = (3 / 10) * 1024) :=
  ⟨by decide, by norm_num⟩

/- ===================== search.py : search_text ===================== -/

/-- Regular-expression AST for the modelled fragment of Python `re`:
    literals, `.`, character classes (ranges, optionally negated),
    concatenation, alternation and the `*`/`+`/`?` repetitions. -/
inductive Regex
  | empt
  | eps
  | chr (c : Char)
  | dot
  | cls (neg : Bool) (items : List (Char × Char))
  | seq (r1 r2 : Regex)
  | alt (r1 r2 : Regex)
  | star (r : Regex)
deriving DecidableEq

/-- Case-insensitive character comparison (`re.IGNORECASE`). -/
def lowEq (a b : Char) : Bool := a.toLower = b.toLower

/-- Character-class membership, case-insensitively (a single char is the
    range `(c, c)`). -/
def clsMatch (items : List (Char × Char)) (c : Char) : Bool :=
  items.any fun p =>
    (p.1 ≤ c && c ≤ p.2) || (p.1 ≤ c.toLower && c.toLower ≤ p.2)
      || (p.1 ≤ c.toUpper && c.toUpper ≤ p.2)

def nullable : Regex → Bool
  | .empt => false
  | .eps => true
  | .chr _ => false
  | .dot => false
  | .cls _ _ => false
  | .seq r1 r2 => nullable r1 && nullable r2
  | .alt r1 r2 => nullable r1 || nullable r2
  | .star _ => true

/-- Brzozowski derivative of the matched language by one input character. -/
def derivR : Regex → Char → Regex
  | .empt, _ => .empt
  | .eps, _ => .empt
  | .chr a, c => if lowEq a c then .eps else .empt
  | .dot, _ => .eps
  | .cls neg items, c => if clsMatch items c != neg then .eps else .empt
  | .seq r1 r2, c =>
      if nullable r1 then .alt (.seq (derivR r1 c) r2) (derivR r2 c)
      else .seq (derivR r1 c) r2
  | .alt r1 r2, c => .alt (derivR r1 c) (derivR r2 c)
  | .star r, c => .seq (derivR r c) (.star r)

/-- Some initial segment of the input matches `r`. -/
def matchStart (r : Regex) : List Char → Bool
  | [] => nullable r
  | c :: cs => nullable r || matchStart (derivR r c) cs

/-- Python `re.search`: the pattern matches somewhere inside the input. -/
def reSearch (r : Regex) : List Char → Bool
  | [] => matchStart r []
  | c :: cs => matchStart r (c :: cs) || reSearch r cs

/-- Character-class body after `[` (and the optional `^`): items up to the
    closing `]`.  A `]` in first position is a literal member; `x-y` is a
    range and fails when its endpoints are out of order (CPython's "bad
    character range"); a `-` just before the closing `]` or at the front is
    literal; running out of input is the unterminated-class error.  Escapes
    inside classes are not modelled: patterns containing a backslash lie
    outside the fragment the search theorem is scoped to. -/
def parseCls (fuel : Nat) (first : Bool) (cs : List Char)
    (acc : List (Char × Char)) : Option (List (Char × Char) × List Char) :=
  match fuel with
  | 0 => none
  | fuel + 1 =>
    match cs with
    | [] => none
    | c :: rest =>
      if c = ']' ∧ ¬ first then some (acc.reverse, rest)
      else
        match rest with
        | '-' :: e :: rest3 =>
          if e = ']' then parseCls fuel false ('-' :: ']' :: rest3) ((c, c) :: acc)
          else if c ≤ e then parseCls fuel false rest3 ((c, e) :: acc)
          else none
        | _ => parseCls fuel false rest ((c, c) :: acc)

/-- A single optional lazy/possessive modifier after a repetition: one `?`
    or `+` is consumed, matching CPython (≥ 3.11 for possessive).  The
    regex itself is kept greedy: laziness leaves the matched language
    unchanged, and no theorem evaluates the matching of a possessive
    pattern — only compile acceptance matters to the theorems. -/
def parseMod (r : Regex) : List Char → Regex × List Char
  | [] => (r, [])
  | c :: rest => if c = '?' ∨ c = '+' then (r, rest) else (r, c :: rest)

/-- The `*`, `+` and `?` repetition suffixes after an atom: one base
    quantifier, then at most one modifier; any further quantifier stays in
    the input, where the atom parser rejects it — CPython's "multiple
    repeat" error (so `a**` fails to compile). -/
def parseReps (r : Regex) : List Char → Regex × List Char
  | [] => (r, [])
  | c :: rest =>
    if c = '*' then parseMod (.star r) rest
    else if c = '+' then parseMod (.seq r (.star r)) rest
    else if c = '?' then parseMod (.alt r .eps) rest
    else (r, c :: rest)

/-- The three levels of the pattern grammar: alternation, concatenation,
    and single atoms. -/
inductive PLevel
  | altL
  | seqL
  | atomL

/-- Recursive-descent pattern parser, all three grammar levels in one
    fuel-indexed function so that it is structurally recursive.
    At `altL`: a concatenation, optionally `| alternation`.
    At `seqL`: repeated atoms-with-repetitions until the end, a `|`, or `)`.
    At `atomL`: a group, a class, `.`, an escaped literal, or a plain
    literal; a dangling repetition operator, stray `)` or trailing backslash
    fails. -/
def parseRx : Nat → PLevel → List Char → Option (Regex × List Char)
  | 0, _, _ => none
  | fuel + 1, .altL, cs =>
    match parseRx fuel .seqL cs with
    | none => none
    | some (r, rest) =>
      match rest with
      | '|' :: rest2 =>
        match parseRx fuel .altL rest2 with
        | none => none
        | some (r2, rest3) => some (.alt r r2, rest3)
      | _ => some (r, rest)
  | fuel + 1, .seqL, cs =>
    match cs with
    | [] => some (.eps, [])
    | c :: _ =>
      if c = '|' ∨ c = ')' then some (.eps, cs)
      else
        match parseRx fuel .atomL cs with
        | none => none
        | some (r, rest) =>
          match parseReps r rest with
          | (r2, rest2) =>
            match parseRx fuel .seqL rest2 with
            | none => none
            | some (r3, rest3) => some (.seq r2 r3, rest3)
  | fuel + 1, .atomL, cs =>
    match cs with
    | [] => none
    | c :: rest =>
      if c = '(' then
        match parseRx fuel .altL rest with
        | none => none
        | some (r, rest2) =>
          match rest2 with
          | ')' :: rest3 => some (r, rest3)
          | _ => none
      else if c = '[' then
        match rest with
        | '^' :: rest2 =>
          match parseCls (rest2.length + 1) true rest2 [] with
          | none => none
          | some (items, rest3) => some (.cls true items, rest3)
        | _ =>
          match parseCls (rest.length + 1) true rest [] with
          | none => none
          | some (items, rest3) => some (.cls false items, rest3)
      else if c = '.' then some (.dot, rest)
      else if c = '\\' then
        match rest with
        | [] => none
        | d :: rest2 => some (.chr d, rest2)
      else if c = '*' ∨ c = '+' ∨ c = '?' ∨ c = ')' ∨ c = '|' then none
      else some (.chr c, rest)

/-- Model of `re.compile(pattern, re.IGNORECASE)`: parse the whole pattern;
    leftover input (an unbalanced `)`) is a compile error, as are the
    failure cases inside the grammar.  On `plainPattern` inputs — no
    backslash escapes, no groups or `(?...)` syntax, no `{m,n}` brace
    quantifiers, no `^`/`$` anchors — the acceptance of this parser
    coincides with `re.compile`: it fails exactly on unterminated or empty
    classes, bad character ranges, dangling or doubled repetition
    operators, and stray `)`.  Groups and top-level escaped literals are
    additionally modelled (the escaped-literal atoms carry the fallback
    path), but outside the fragment no theorem relies on agreement with
    CPython. -/
def compile (p : String) : Option Regex :=
  match parseRx (4 * p.length + 4) PLevel.altL p.data with
  | none => none
  | some (r, []) => some r
  | some (_, _ :: _) => none

/-- One escaped character of `re.escape`: ASCII letters, digits and the
    underscore stay, everything else gets a backslash. -/
def escapeChar (c : Char) : List Char :=
  if c.isAlphanum || c = '_' then [c] else ['\\', c]

def escapeList : List Char → List Char
  | [] => []
  | c :: cs => escapeChar c ++ escapeList cs

/-- Model of `re.escape`. -/
def escape (p : String) : String := ⟨escapeList p.data⟩

/-- The regex actually used by `search_text`: the pattern if it compiles,
    otherwise the escaped literal fallback (proved below to always compile;
    the final `.eps` arm is unreachable). -/
def searchRegex (pattern : String) : Regex :=
  match compile pattern with
  | some r => r
  | none =>
    match compile (escape pattern) with
    | some r => r
    | none => .eps

def numberLines : Nat → List String → List (Nat × String)
  | _, [] => []
  | i, l :: ls => (i, l) :: numberLines (i + 1) ls

/-- `search.py search_text` over one file's lines: scan them with 1-based
    numbering, keeping every line the (case-insensitive) regex search hits.
    File enumeration, the include/exclude globs and the silent skipping of
    unreadable files sit above this loop and do not affect it. -/
def search_text (pattern : String) (lines : List String) : List (Nat × String) :=
  (numberLines 1 lines).filter fun pr => reSearch (searchRegex pattern) pr.2.data

/-- Case-insensitive "starts with" on code-point lists. -/
def leadsWithCI : List Char → List Char → Bool
  | [], _ => true
  | _ :: _, [] => false
  | p :: ps, c :: cs => lowEq p c && leadsWithCI ps cs

/-- Case-insensitive substring containment. -/
def containsCI (pat : List Char) : List Char → Bool
  | [] => leadsWithCI pat []
  | c :: cs => leadsWithCI pat (c :: cs) || containsCI pat cs

/-- The literal regex `re.compile(re.escape(p))` denotes. -/
def litRegex : List Char → Regex
  | [] => .eps
  | c :: cs => .seq (.chr c) (litRegex cs)

example : compile "[" = none := by decide
example : compile "a[b" = none := by decide
example : compile ")" = none := by decide
example : compile "a**" = none := by decide
example : compile "a???" = none := by decide
example : compile "[z-a]" = none := by decide
example : compile "[]" = none := by decide
example : (compile "a(b|c)*").isSome = true := by decide
example : (compile "a*?").isSome = true := by decide
example : (compile "a*+").isSome = true := by decide
example : (compile "[]]").isSome = true := by decide
example : (compile "[a-]").isSome = true := by decide
example : (compile "a|").isSome = true := by decide
example : (compile "[]-a]").isSome = true := by decide
example : compile "[]-Z]" = none := by decide
example : (compile "[^]]").isSome = true := by decide
example : (compile "[a-b-c]").isSome = true := by decide
example : compile "a+*" = none := by decide
example : compile "?a" = none := by decide
example : compile "a|*" = none := by decide
example : search_text "needle" ["x", "has needle", "y", "z", "NEEDLE too"]
    = [(2, "has needle"), (5, "NEEDLE too")] := by decide
example : search_text "[" ["a[b", "cd"] = [(1, "a[b")] := by decide

/- ===================== lemmas : text search ===================== -/

theorem matchStart_eps (s : List Char) : matchStart .eps s = true := by
  cases s <;> simp [matchStart, nullable]

theorem matchStart_empt (s : List Char) : matchStart .empt s = false := by
  induction s with
  | nil => rfl
  | cons c cs ih => simp [matchStart, nullable, derivR, ih]

theorem matchStart_alt (r1 r2 : Regex) (s : List Char) :
    matchStart (.alt r1 r2) s = (matchStart r1 s || matchStart r2 s) := by
  induction s generalizing r1 r2 with
  | nil => simp [matchStart, nullable]
  | cons c cs ih =>
    show ((nullable r1 || nullable r2) || matchStart (.alt (derivR r1 c) (derivR r2 c)) cs)
      = ((nullable r1 || matchStart (derivR r1 c) cs)
          || (nullable r2 || matchStart (derivR r2 c) cs))
    rw [ih]
    cases hn1 : nullable r1 <;> cases hn2 : nullable r2 <;>
      cases hm1 : matchStart (derivR r1 c) cs <;>
      cases hm2 : matchStart (derivR r2 c) cs <;> rfl

theorem matchStart_emptseq (r : Regex) (s : List Char) :
    matchStart (.seq .empt r) s = false := by
  induction s generalizing r with
  | nil => rfl
  | cons c cs ih => simpa [matchStart, nullable, derivR] using ih r

theorem matchStart_epsseq (r : Regex) (s : List Char) :
    matchStart (.seq .eps r) s = matchStart r s := by
  cases s with
  | nil => simp [matchStart, nullable]
  | cons c cs =>
    show ((true && nullable r) || matchStart (.alt (.seq .empt r) (derivR r c)) cs)
      = (nullable r || matchStart (derivR r c) cs)
    rw [matchStart_alt, matchStart_emptseq]
    simp

theorem matchStart_lit (pat : List Char) (s : List Char) :
    matchStart (litRegex pat) s = leadsWithCI pat s := by
  induction pat generalizing s with
  | nil =>
    rw [show litRegex [] = .eps from rfl, matchStart_eps]
    rfl
  | cons p ps ih =>
    cases s with
    | nil => simp [litRegex, matchStart, nullable, leadsWithCI]
    | cons c cs =>
      by_cases h : lowEq p c = true
      · have hd : derivR (.seq (.chr p) (litRegex ps)) c = .seq .eps (litRegex ps) := by
          simp [derivR, nullable, h]
        show ((false && nullable (litRegex ps))
            || matchStart (derivR (.seq (.chr p) (litRegex ps)) c) cs)
          = leadsWithCI (p :: ps) (c :: cs)
        rw [hd, matchStart_epsseq, ih]
        simp [leadsWithCI, h]
      · have hd : derivR (.seq (.chr p) (litRegex ps)) c = .seq .empt (litRegex ps) := by
          simp [derivR, nullable, h]
        show ((false && nullable (litRegex ps))
            || matchStart (derivR (.seq (.chr p) (litRegex ps)) c) cs)
          = leadsWithCI (p :: ps) (c :: cs)
        rw [hd, matchStart_emptseq]
        simp only [Bool.false_and, Bool.false_or, leadsWithCI]
        simp [h]

theorem reSearch_lit (pat : List Char) (s : List Char) :
    reSearch (litRegex pat) s = containsCI pat s := by
  induction s with
  | nil => simp [reSearch, containsCI, matchStart_lit]
  | cons c cs ih => simp [reSearch, containsCI, matchStart_lit, ih]

theorem alnum_not_special (c : Char) (h : (c.isAlphanum || c = '_') = true) :
    ¬ c = '(' ∧ ¬ c = '[' ∧ ¬ c = '.' ∧ ¬ c = '\\' ∧ ¬ c = '*' ∧ ¬ c = '+' ∧
    ¬ c = '?' ∧ ¬ c = ')' ∧ ¬ c = '|' := by
  refine ⟨?_, ?_, ?_, ?_, ?_, ?_, ?_, ?_, ?_⟩ <;> (rintro rfl; revert h; decide)

theorem parseReps_escape (r : Regex) (cs : List Char) :
    parseReps r (escapeList cs) = (r, escapeList cs) := by
  cases cs with
  | nil => rfl
  | cons c cs' =>
    show parseReps r (escapeChar c ++ escapeList cs') = (r, escapeChar c ++ escapeList cs')
    unfold escapeChar
    by_cases h : (c.isAlphanum || c = '_') = true
    · obtain ⟨-, -, -, -, h5, h6, h7, -, -⟩ := alnum_not_special c h
      rw [if_pos h]
      simp only [List.cons_append, List.nil_append, parseReps]
      rw [if_neg h5, if_neg h6, if_neg h7]
    · rw [if_neg h]
      simp only [List.cons_append, List.nil_append, parseReps]
      rw [if_neg (by decide : ¬ '\\' = '*'), if_neg (by decide : ¬ '\\' = '+'),
        if_neg (by decide : ¬ '\\' = '?')]

theorem escapeList_length (cs : List Char) : cs.length ≤ (escapeList cs).length := by
  induction cs with
  | nil => simp [escapeList]
  | cons c cs' ih =>
    show (c :: cs').length ≤ (escapeChar c ++ escapeList cs').length
    unfold escapeChar
    by_cases h : (c.isAlphanum || c = '_') = true
    · rw [if_pos h]
      simp only [List.length_cons, List.length_append, List.length_cons, List.length_nil]
      omega
    · rw [if_neg h]
      simp only [List.length_cons, List.length_append, List.length_cons, List.length_nil]
      omega

theorem parseRx_atom_escape (f : Nat) (c : Char) (rest : List Char) :
    parseRx (f + 1) PLevel.atomL (escapeChar c ++ rest) = some (.chr c, rest) := by
  unfold escapeChar
  by_cases h : (c.isAlphanum || c = '_') = true
  · obtain ⟨h1, h2, h3, h4, h5, h6, h7, h8, h9⟩ := alnum_not_special c h
    rw [if_pos h]
    simp only [List.cons_append, List.nil_append, parseRx]
    rw [if_neg h1, if_neg h2, if_neg h3, if_neg h4,
      if_neg (by simp [h5, h6, h7, h8, h9] :
        ¬ (c = '*' ∨ c = '+' ∨ c = '?' ∨ c = ')' ∨ c = '|'))]
  · rw [if_neg h]
    simp only [List.cons_append, List.nil_append, parseRx]
    rw [if_neg (by decide : ¬ '\\' = '('), if_neg (by decide : ¬ '\\' = '['),
      if_neg (by decide : ¬ '\\' = '.')]
    simp

theorem parseRx_seq_escape (cs : List Char) (fuel : Nat) (hf : cs.length < fuel) :
    parseRx fuel PLevel.seqL (escapeList cs) = some (litRegex cs, []) := by
  induction cs generalizing fuel with
  | nil =>
    cases fuel with
    | zero => omega
    | succ f => rfl
  | cons c cs' ih =>
    cases fuel with
    | zero => omega
    | succ f =>
      have hf' : cs'.length < f := by
        simp only [List.length_cons] at hf
        omega
      have hatom : parseRx f PLevel.atomL (escapeChar c ++ escapeList cs')
          = some (.chr c, escapeList cs') := by
        obtain ⟨g, rfl⟩ : ∃ g, f = g + 1 := ⟨f - 1, by omega⟩
        exact parseRx_atom_escape g c (escapeList cs')
      have hrec : parseRx f PLevel.seqL (escapeList cs') = some (litRegex cs', []) :=
        ih f hf'
      show parseRx (f + 1) PLevel.seqL (escapeChar c ++ escapeList cs')
        = some (litRegex (c :: cs'), [])
      by_cases h : (c.isAlphanum || c = '_') = true
      · obtain ⟨-, -, -, -, -, -, -, h8, h9⟩ := alnum_not_special c h
        have hform : escapeChar c ++ escapeList cs' = c :: escapeList cs' := by
          unfold escapeChar
          rw [if_pos h]
          rfl
        have hatom2 : parseRx f PLevel.atomL (c :: escapeList cs')
            = some (.chr c, escapeList cs') := hform ▸ hatom
        rw [hform]
        simp only [parseRx]
        rw [if_neg (by simp [h8, h9] : ¬ (c = '|' ∨ c = ')'))]
        simp only [hatom2, parseReps_escape, hrec]
        rfl
      · have hform : escapeChar c ++ escapeList cs' = '\\' :: c :: escapeList cs' := by
          unfold escapeChar
          rw [if_neg h]
          rfl
        have hatom2 : parseRx f PLevel.atomL ('\\' :: c :: escapeList cs')
            = some (.chr c, escapeList cs') := hform ▸ hatom
        rw [hform]
        simp only [parseRx]
        rw [if_neg (by decide : ¬ ('\\' = '|' ∨ '\\' = ')'))]
        simp only [hatom2, parseReps_escape, hrec]
        rfl

theorem compile_escape (p : String) : compile (escape p) = some (litRegex p.data) := by
  unfold compile
  have hdata : (escape p).data = escapeList p.data := rfl
  rw [hdata]
  rw [show 4 * (escape p).length + 4 = (4 * (escape p).length + 3) + 1 from by omega]
  generalize hF : 4 * (escape p).length + 3 = F
  have hlen : p.data.length < F := by
    have h1 := escapeList_length p.data
    have h2 : (escape p).length = (escapeList p.data).length := rfl
    omega
  have hseq := parseRx_seq_escape p.data F hlen
  simp only [parseRx, hseq]

/-- The pattern fragment the fallback theorem is scoped to: no backslash
    escapes (so no `\\1` group references or class escapes), no groups or
    `(?...)` extension syntax, no `{m,n}` brace quantifiers, no anchors.
    On this fragment the modelled `compile` accepts a pattern exactly when
    `re.compile` does. -/
def plainPattern (p : String) : Bool :=
  p.data.all fun c => !(c == '\\' || c == '(' || c == '{' || c == '^' || c == '$')

/-- C8: whenever a pattern from the modelled fragment fails to compile as a
regular expression (an unmatched bracket like `"["`, a bad character range,
a doubled repetition operator, ...), `search_text` does not raise: the
fallback compiles the escaped pattern, which always succeeds and denotes the
raw pattern text as a literal, so exactly the lines containing that text
case-insensitively are returned, with their 1-based line numbers.  Patterns
outside the fragment (backslash escapes, groups, brace quantifiers,
anchors) are beyond the modelled portion of `re` and not covered. -/
theorem search_text_invalid_regex (pattern : String) (lines : List String)
    (_hfrag : plainPattern pattern = true)
    (h : compile pattern = none) :
    search_text pattern lines =
      (numberLines 1 lines).filter fun pr => containsCI pattern.data pr.2.data := by
  have hsr : searchRegex pattern = litRegex pattern.data := by
    simp only [searchRegex, h, compile_escape]
  unfold search_text
  rw [hsr]
  simp only [reSearch_lit]

theorem search_text_invalid_regex_witness :
    plainPattern "[" = true ∧ compile "[" = none ∧
    search_text "[" ["a[b", "cd"] =
      (numberLines 1 ["a[b", "cd"]).filter
        (fun pr => containsCI ("[" : String).data pr.2.data) :=
  ⟨by decide, by decide, search_text_invalid_regex "[" ["a[b", "cd"] (by decide) (by decide)⟩
